import Mathlib

/-!
Shallow embedding of the compile-time function-memoization pass in
`llvm/lib/Transforms/Memoize/Memoize.cpp`, together with theorems settling
the specification claims about it.

The embedding models exactly the parts of LLVM IR that the pass inspects:
types (via `Type::getTypeID`), values (arguments, integer constants, global
variables, instruction results), instructions (calls with a possibly
unresolved callee, loads, stores, debug intrinsics, anything else), and
functions/modules. The analyzer `isMemoizable` is fuel-indexed because the
C++ recursion (`isMemoizable` -> `checkFunctionCalls` -> `isMemoizable`)
has no termination guarantee on cyclic call graphs; `Res.fuelOut` marks an
evaluation still running when the fuel is exhausted, and `Res.crash` marks
the null-callee dereference at Memoize.cpp:182.
-/

set_option linter.unusedVariables false

namespace Memoize

/-- Model of `llvm::Type`, restricted to the shapes the pass distinguishes.
`typeID` below mirrors the numeric values of `Type::TypeID` used by
`getTypeID()` comparisons and sorts. -/
inductive LTy
  | float
  | double
  | voidTy
  | int (bits : Nat)
  | ptr (elem : LTy)
  | structTy
  | arrayTy
deriving DecidableEq

/-- Numeric `Type::TypeID` of a type (LLVM enum values of the era of this
pass: FloatTyID = 1, DoubleTyID = 2, VoidTyID = 6, IntegerTyID = 11,
StructTyID = 13, ArrayTyID = 14, PointerTyID = 15). -/
def LTy.typeID : LTy → Nat
  | .float => 1
  | .double => 2
  | .voidTy => 6
  | .int _ => 11
  | .structTy => 13
  | .arrayTy => 14
  | .ptr _ => 15

def integerTyID : Nat := 11
def floatTyID : Nat := 1
def doubleTyID : Nat := 2

def LTy.isPointerTy : LTy → Bool
  | .ptr _ => true
  | _ => false

/-- Model of `llvm::Value` as the pass sees values: function arguments
(identified by position), uniqued integer constants (`ConstantInt`),
global variables (identified by name; their value type is `ty`, so the
value itself has type `ptr ty`), and instruction results. Equality of
these models pointer equality in LLVM, where constants are uniqued. -/
inductive Value
  | arg (idx : Nat) (ty : LTy)
  | constInt (bits : Nat) (val : Int)
  | global (gname : String) (ty : LTy)
  | instr (id : Nat) (ty : LTy)
deriving DecidableEq

def Value.isConstInt : Value → Bool
  | .constInt _ _ => true
  | _ => false

def Value.isGlobal : Value → Bool
  | .global _ _ => true
  | _ => false

/-- `Value::getType()`: a `GlobalVariable` value has pointer-to-element
type. -/
def Value.typeOf : Value → LTy
  | .arg _ ty => ty
  | .constInt bits _ => .int bits
  | .global _ ty => .ptr ty
  | .instr _ ty => ty

/-- Instructions, carrying exactly what the pass inspects. A `call` whose
`callee` is `none` is an indirect call (`CallInst::getCalledFunction()`
returns null). `debug` stands for a debug intrinsic, which
`instructionsWithoutDebug()` skips. `argOps` / the operand lists are the
data operands. -/
inductive Instr
  | call (callee : Option String) (argOps : List Value)
  | load (p : Value)
  | store (v : Value) (p : Value)
  | other (ops : List Value)
  | debug (ops : List Value)
deriving DecidableEq

def Instr.operands : Instr → List Value
  | .call _ argOps => argOps
  | .load p => [p]
  | .store v p => [v, p]
  | .other ops => ops
  | .debug ops => ops

def Instr.isCall : Instr → Bool
  | .call _ _ => true
  | _ => false

def Instr.isDebug : Instr → Bool
  | .debug _ => true
  | _ => false

def Instr.isLoadOrStore : Instr → Bool
  | .load _ => true
  | .store _ _ => true
  | _ => false

/-- Linkage of a function. The pass's `mayBeOverridden` ignores this field
entirely (Memoize.cpp:351-353 returns `false` unconditionally). -/
inductive Linkage
  | externalLink
  | internalLink
  | weakAny
  | linkonce
deriving DecidableEq

/-- Model of `llvm::Function`: the attributes read by the pass, the
parameter types, the return type, and the body as the ordered sequence of
instructions of all basic blocks. -/
structure Func where
  name : String
  isDecl : Bool
  isIntr : Bool
  isVarArg : Bool
  linkage : Linkage
  addressTaken : Bool
  speculatable : Bool
  args : List LTy
  retTy : LTy
  body : List Instr
deriving DecidableEq

/-- Model of `llvm::Module`: its function list and global variables. -/
structure Module where
  funcs : List Func
  globals : List (String × LTy)
deriving DecidableEq

def findFunc (M : Module) (n : String) : Option Func :=
  M.funcs.find? (fun F => F.name == n)

/-- `CallInst::getCalledFunction()` composed with looking the function up
in the module: `none` models the null pointer returned for an indirect
call. -/
def getCalledFunction (M : Module) : Option String → Option Func
  | none => none
  | some n => findFunc M n

/-- `MAX_DEPTH` from Memoize.cpp:35. -/
def MAX_DEPTH : Nat := 10

/-- Memoize.cpp:351-353: the check is left unimplemented and returns
`false` for every function, whatever its linkage or address-takenness. -/
def mayBeOverridden (F : Func) : Bool := false

/-- `StringRef::contains`: does `s` contain `pat` as a substring. -/
def strContains (s pat : String) : Bool :=
  (List.range (s.toList.length + 1)).any fun i => pat.toList.isPrefixOf (s.toList.drop i)

/-- Memoize.cpp:147-149. -/
def isMemoizableLib (F : Func) : Bool :=
  strContains F.name "_memoized__"

/-- Memoize.cpp:151-159: every user of the argument must be a load or a
store. In the model, the users of argument `i` are the body instructions
having `Value.arg i _` among their operands. -/
def isMemoizablePointer (F : Func) (i : Nat) : Bool :=
  F.body.all fun I =>
    !(I.operands.any fun v =>
        match v with
        | .arg j _ => j == i
        | _ => false) || I.isLoadOrStore

/-- Memoize.cpp:161-170. -/
def isProperArguments (F : Func) : Bool :=
  F.args.enum.all fun p => !p.2.isPointerTy || isMemoizablePointer F p.1

/-- Memoize.cpp:108-110: the scalar-type test exactly as written,
`opType != IntegerTyID || opType != FloatTyID || opType != DoubleTyID`
(a disjunction of disequalities, which no single `opType` can falsify). -/
def scalarTypeTest (opType : Nat) : Bool :=
  (opType != integerTyID) || (opType != floatTyID) || (opType != doubleTyID)

/-- Inner operand loop of `isGlobalSafe` (Memoize.cpp:100-121), threading
the `global` local (`none` while no global has been seen). Returns `none`
when the C++ loop executes `return false`, otherwise the updated tracked
global. `opType` is `globalVariable->getType()->getTypeID()`, the type id
of the global's POINTER type. -/
def scanGlobalOps : Option String → List Value → Option (Option String)
  | cur, [] => some cur
  | cur, v :: vs =>
    match v with
    | .global gname gty =>
      let opType := LTy.typeID (.ptr gty)
      if scalarTypeTest opType then none
      else
        match cur with
        | none => scanGlobalOps (some gname) vs
        | some g0 => if gname == g0 then scanGlobalOps (some g0) vs else none
    | _ => scanGlobalOps cur vs

def isGlobalSafeGo : Option String → List Instr → Bool
  | _, [] => true
  | cur, I :: rest =>
    if I.isDebug then isGlobalSafeGo cur rest
    else
      match scanGlobalOps cur I.operands with
      | none => false
      | some cur2 => isGlobalSafeGo cur2 rest

/-- Memoize.cpp:94-125 (the `callStackDepth = 0` done at its entry is
accounted for at the call in `isMemoizable`, which passes depth 0 to
`checkFunctionCalls`). -/
def isGlobalSafe (F : Func) : Bool :=
  isGlobalSafeGo none F.body

/-- Verdict of one analyzer run. `ok b d` is a normal return of `b` with
the member `callStackDepth` left at `d`; `crash` is the null-callee
dereference at Memoize.cpp:182; `fuelOut` means the recursion was still
running when the modelling fuel ran out. -/
inductive Res
  | ok (b : Bool) (d : Nat)
  | crash
  | fuelOut
deriving DecidableEq

/-- Memoize.cpp:172-204, as a loop over the instruction list. `evalF` is
the recursive call to `isMemoizable` (one fuel level down); `d` is the
current value of the shared member `callStackDepth`. -/
def checkFunctionCalls (evalF : Nat → Func → Res) (M : Module) : Nat → List Instr → Res
  | d, [] => .ok true d
  | d, i :: rest =>
    match i with
    | .call calleeName _ =>
      match getCalledFunction M calleeName with
      | none => .crash
      | some callee =>
        if callee.speculatable then
          checkFunctionCalls evalF M d rest
        else
          let d1 := d + 1
          if MAX_DEPTH ≤ d1 then .ok false d1
          else
            match evalF d1 callee with
            | .ok true d2 => checkFunctionCalls evalF M d2 rest
            | .ok false d2 => .ok false d2
            | r => r
    | _ => checkFunctionCalls evalF M d rest

/-- Memoize.cpp:127-145. Structure: structural disqualifications first;
then the `_memoized__` name escape hatch; then `callStackDepth = 0`
(line 135, and again inside `isGlobalSafe`, line 95), so
`checkFunctionCalls` always starts from depth 0; all three sub-checks are
computed unconditionally (no short-circuiting across them, as in the
source, which stores them into three `bool`s before combining). -/
def isMemoizable : Nat → Module → Nat → Func → Res
  | 0, _, _, _ => .fuelOut
  | fuel + 1, M, d, F =>
    if F.isDecl || F.isIntr || F.isVarArg || mayBeOverridden F then
      .ok false d
    else if isMemoizableLib F then
      .ok true d
    else
      let properArgs := isProperArguments F
      let globalSafe := isGlobalSafe F
      match checkFunctionCalls (fun d2 G => isMemoizable fuel M d2 G) M 0 F.body with
      | .ok functionCheck d2 => .ok (properArgs && globalSafe && functionCheck) d2
      | r => r

/-- `runOnModule` enters the analysis with `callStackDepth = 0`
(Memoize.cpp:47). -/
def evaluate (M : Module) (F : Func) (fuel : Nat) : Res :=
  isMemoizable fuel M 0 F

/-! ### Module-threaded analyzer

The C++ analysis methods take `const Function &` and perform no store to
the module; to be able to STATE that as a theorem rather than bake it into
a type, the following mirror of the analyzer threads the module through
every step exactly where the control flow of the source passes it, and
returns it alongside the verdict. -/

/-- `checkFunctionCalls`, threading the module. -/
def checkFunctionCallsSt (evalF : Module → Nat → Func → Res × Module) :
    Module → Nat → List Instr → Res × Module
  | M, d, [] => (.ok true d, M)
  | M, d, i :: rest =>
    match i with
    | .call calleeName _ =>
      match getCalledFunction M calleeName with
      | none => (.crash, M)
      | some callee =>
        if callee.speculatable then
          checkFunctionCallsSt evalF M d rest
        else
          let d1 := d + 1
          if MAX_DEPTH ≤ d1 then (.ok false d1, M)
          else
            match evalF M d1 callee with
            | (.ok true d2, M2) => checkFunctionCallsSt evalF M2 d2 rest
            | (.ok false d2, M2) => (.ok false d2, M2)
            | (r, M2) => (r, M2)
    | _ => checkFunctionCallsSt evalF M d rest

/-- `isMemoizable`, threading the module. -/
def isMemoizableSt : Nat → Module → Nat → Func → Res × Module
  | 0, M, _, _ => (.fuelOut, M)
  | fuel + 1, M, d, F =>
    if F.isDecl || F.isIntr || F.isVarArg || mayBeOverridden F then
      (.ok false d, M)
    else if isMemoizableLib F then
      (.ok true d, M)
    else
      let properArgs := isProperArguments F
      let globalSafe := isGlobalSafe F
      match checkFunctionCallsSt (fun M2 d2 G => isMemoizableSt fuel M2 d2 G) M 0 F.body with
      | (.ok functionCheck d2, M2) => (.ok (properArgs && globalSafe && functionCheck) d2, M2)
      | (r, M2) => (r, M2)

/-! ### Call-site rewriter (Memoize.cpp:222-349) -/

/-- `std::distance(l.begin(), std::find(l.begin(), l.end(), x))`: index of
the first element equal to `x`, or `l.length` when absent. -/
def idxOfV : List Value → Value → Nat
  | [], _ => 0
  | y :: ys, x => if y = x then 0 else idxOfV ys x + 1

/-- `l.erase(l.begin() + n)`; erasing at or past the end is modelled as a
no-op (the uses below stay in bounds). -/
def eraseAt {α : Type} : List α → Nat → List α
  | [], _ => []
  | _ :: ys, 0 => ys
  | y :: ys, n + 1 => y :: eraseAt ys n

/-- Erase the first element equal to `x` (helper for reasoning about
`eraseAt _ (idxOfV _ x)`). -/
def eraseV : List Value → Value → List Value
  | [], _ => []
  | y :: ys, x => if y = x then ys else y :: eraseV ys x

/-- Occurrence count of a value in a list. -/
def countV : List Value → Value → Nat
  | [], _ => 0
  | y :: ys, x => (if y = x then 1 else 0) + countV ys x

/-- Memoize.cpp:355-361: collect the global variables used anywhere in the
body (every instruction, debug intrinsics included) into a set; a
`SmallPtrSet` at small size iterates in insertion order, so the model is
first-occurrence deduplication. -/
def getGlobalsByFunction (F : Func) : List Value :=
  F.body.foldl
    (fun acc I =>
      I.operands.foldl
        (fun acc2 v =>
          match v with
          | .global _ _ => if acc2.contains v then acc2 else acc2 ++ [v]
          | _ => acc2)
        acc)
    []

/-- Memoize.cpp:363-369. -/
def getPrototype (F : Func) : List LTy :=
  F.args

/-- Insert into a list sorted by `typeID` (deterministic model of the
`std::sort` at Memoize.cpp:227-229, whose comparator is
`a->getTypeID() < b->getTypeID()`). -/
def insertByTypeID (t : LTy) : List LTy → List LTy
  | [] => [t]
  | u :: us => if u.typeID ≤ t.typeID then u :: insertByTypeID t us else t :: u :: us

def sortProto : List LTy → List LTy
  | [] => []
  | t :: ts => insertByTypeID t (sortProto ts)

/-- Constant-removal loop, Memoize.cpp:257-274: for each `x` in `args`,
find its index in `newArgs` (first occurrence, pointer equality); if `x`
is a `ConstantInt`, erase that index from the (shared) `prototype` and
from `newArgs`. -/
def removeConstants : List LTy → List Value → List Value → List LTy × List Value
  | proto, newArgs, [] => (proto, newArgs)
  | proto, newArgs, x :: xs =>
    let index := idxOfV newArgs x
    if x.isConstInt then
      removeConstants (eraseAt proto index) (eraseAt newArgs index) xs
    else
      removeConstants proto newArgs xs

/-- The function created by one `Function::Create` call
(Memoize.cpp:305-310): the name string passed, the parameter types of the
`FunctionType` built at 292-296, and the return type. -/
structure NewFunc where
  name : String
  sigTypes : List LTy
  retTy : LTy
deriving DecidableEq

/-- One call site of the function being rewritten: its data operands
(`callSite->data_ops()`, Memoize.cpp:243). -/
structure CallSiteIn where
  args : List Value
deriving DecidableEq

/-- What one iteration of the call-site loop produces: the function
created for this site, the argument list of the replacement call, and the
value of the shared `prototype` vector after this iteration. -/
structure SiteResult where
  createdFunc : NewFunc
  callArgs : List Value
  protoAfter : List LTy
deriving DecidableEq

/-- Body of the per-call-site loop (Memoize.cpp:237-348) for one site.
`args` is data operands followed by the collected globals (243-248);
`newArgs` starts as a copy of `args` (251) — the `std::sort` at 252-254 is
over the empty range `[begin, begin)` and is a no-op — then constants are
removed (257-274); the new function's signature is the types of the
remaining `newArgs` (288-296) and its name is `"_memoized__" + F.name`
(308), with no constant suffix (the concatenation at 272 is commented
out). -/
def processSite (fname : String) (retTy : LTy) (globals : List Value)
    (proto : List LTy) (cs : CallSiteIn) : SiteResult × List LTy :=
  let args := cs.args ++ globals
  let newArgs := args
  let pr := removeConstants proto newArgs args
  ({ createdFunc :=
      { name := "_memoized__" ++ fname
        sigTypes := pr.2.map Value.typeOf
        retTy := retTy }
     callArgs := pr.2
     protoAfter := pr.1 },
   pr.1)

def replaceGo (fname : String) (retTy : LTy) (globals : List Value) :
    List LTy → List CallSiteIn → List SiteResult
  | _, [] => []
  | proto, cs :: rest =>
    let pr := processSite fname retTy globals proto cs
    pr.1 :: replaceGo fname retTy globals pr.2 rest

/-- Memoize.cpp:222-349: rewrite all call sites of `F` (given as the
`CallInst` users of `F`, in use-list order), threading the single shared
`prototype` vector — computed and type-sorted once at 226-229 and then
destructively `erase`d from at 267 inside every call site's iteration. -/
def replaceCallSites (F : Func) (sites : List CallSiteIn) : List SiteResult :=
  replaceGo F.name F.retTy (getGlobalsByFunction F) (sortProto (getPrototype F)) sites

/-- Characterization used by the amended claim C6: what one call site's
created function works out to be — name ignores the folded constants, and
the signature is the types of the site's non-constant actual arguments
(data operands then collected globals, with every `ConstantInt` dropped).
-/
def canonNewFunc (F : Func) (cs : CallSiteIn) : NewFunc :=
  { name := "_memoized__" ++ F.name
    sigTypes := ((cs.args ++ getGlobalsByFunction F).filter
        (fun v => !v.isConstInt)).map Value.typeOf
    retTy := F.retTy }

/-! ### Concrete input programs used by the claim theorems -/

/-- A function with every structural flag clear; concrete inputs override
the relevant fields. -/
def baseFunc : Func :=
  { name := ""
    isDecl := false
    isIntr := false
    isVarArg := false
    linkage := .externalLink
    addressTaken := false
    speculatable := false
    args := []
    retTy := .voidTy
    body := [] }

/-- A function whose body contains one indirect call (statically
unresolved callee). -/
def fInd : Func :=
  { baseFunc with name := "h", retTy := .int 32, body := [.call none []] }

def mInd : Module := ⟨[fInd], []⟩

/-- Mutually recursive pair: `f` calls `g`, `g` calls `f`. -/
def fCyc : Func :=
  { baseFunc with name := "f", retTy := .int 32, body := [.call (some "g") []] }

def gCyc : Func :=
  { baseFunc with name := "g", retTy := .int 32, body := [.call (some "f") []] }

def mCyc : Module := ⟨[fCyc, gCyc], []⟩

/-- The spec's scenario `readG(x: int) -> int { return x + G; }` with `G`
a scalar i32 global: one body instruction (the add) whose operands are the
parameter and the global. -/
def readG : Func :=
  { baseFunc with
    name := "readG"
    args := [.int 32]
    retTy := .int 32
    body := [.other [.arg 0 (.int 32), .global "G" (.int 32)]] }

def mReadG : Module := ⟨[readG], [("G", .int 32)]⟩

/-- A linear call chain `c0 -> c1 -> ... -> c11`: twelve functions, each
body a single non-speculatable call to the next, the last a leaf. -/
def mkChainFunc (nm : String) (callee : Option String) : Func :=
  { baseFunc with
    name := nm
    retTy := .int 32
    body := match callee with
            | some c => [.call (some c) []]
            | none => [] }

def mChain : Module :=
  ⟨[mkChainFunc "c0" (some "c1"), mkChainFunc "c1" (some "c2"),
    mkChainFunc "c2" (some "c3"), mkChainFunc "c3" (some "c4"),
    mkChainFunc "c4" (some "c5"), mkChainFunc "c5" (some "c6"),
    mkChainFunc "c6" (some "c7"), mkChainFunc "c7" (some "c8"),
    mkChainFunc "c8" (some "c9"), mkChainFunc "c9" (some "c10"),
    mkChainFunc "c10" (some "c11"), mkChainFunc "c11" none], []⟩

def chain0 : Func := mkChainFunc "c0" (some "c1")

/-- A defined function carrying the `_memoized__` mark, used as the callee
of ten sibling calls. -/
def libK : Func :=
  { baseFunc with name := "k_memoized__", retTy := .int 32 }

/-- Ten sibling calls to `libK`: no call chain is deeper than one call,
yet the shared `callStackDepth` accumulates across the siblings. -/
def fSib : Func :=
  { baseFunc with
    name := "sib"
    retTy := .int 32
    body := List.replicate 10 (Instr.call (some "k_memoized__") []) }

def mSib : Module := ⟨[fSib, libK], []⟩

/-- A function with no parameters, no global references and no calls. -/
def fTrivial : Func :=
  { baseFunc with name := "trivial", body := [.other []] }

def mTrivial : Module := ⟨[fTrivial], []⟩

/-- A variadic function whose name carries the `_memoized__` mark. -/
def fVarLib : Func :=
  { baseFunc with name := "_memoized__v", isVarArg := true }

def mVarLib : Module := ⟨[fVarLib], []⟩

/-- A `_memoized__`-marked function whose body would crash the call
analysis (indirect call) were the analysis performed. -/
def fLibInd : Func :=
  { baseFunc with name := "_memoized__h", body := [.call none []] }

def mLibInd : Module := ⟨[fLibInd], []⟩

/-- A weak-linkage, address-taken function that is otherwise trivially
eligible. -/
def fWeak : Func :=
  { baseFunc with name := "w", linkage := .weakAny, addressTaken := true }

def mWeak : Module := ⟨[fWeak], []⟩

/-- Two-parameter function being rewritten, and the values appearing at
its call sites. -/
def fooRw : Func :=
  { baseFunc with name := "foo", args := [.int 32, .int 32], retTy := .int 32 }

def c5v : Value := .constInt 32 5
def c6v : Value := .constInt 32 6
def vX : Value := .instr 1 (.int 32)
def vY : Value := .instr 2 (.int 32)

/-- `evaluate` on the module-threaded analyzer. -/
def evaluateSt (M : Module) (F : Func) (fuel : Nat) : Res × Module :=
  isMemoizableSt fuel M 0 F

/-! ## Helper lemmas -/

theorem scanGlobalOps_of_no_globals :
    ∀ (ops : List Value) (cur : Option String),
      (ops.all fun v => !v.isGlobal) = true → scanGlobalOps cur ops = some cur := by
  intro ops
  induction ops with
  | nil => intro cur h; rfl
  | cons v vs ih =>
    intro cur h
    simp only [List.all_cons, Bool.and_eq_true] at h
    cases v with
    | global gname gty => simp [Value.isGlobal] at h
    | arg i ty => simpa [scanGlobalOps] using ih cur h.2
    | constInt b x => simpa [scanGlobalOps] using ih cur h.2
    | instr i ty => simpa [scanGlobalOps] using ih cur h.2

theorem isGlobalSafeGo_of_no_globals :
    ∀ (body : List Instr) (cur : Option String),
      (body.all fun I => I.operands.all fun v => !v.isGlobal) = true →
      isGlobalSafeGo cur body = true := by
  intro body
  induction body with
  | nil => intro cur h; rfl
  | cons I rest ih =>
    intro cur h
    simp only [List.all_cons, Bool.and_eq_true] at h
    by_cases hd : I.isDebug = true
    · simp only [isGlobalSafeGo, hd, if_true]
      exact ih cur h.2
    · simp only [isGlobalSafeGo, hd, if_false,
        scanGlobalOps_of_no_globals I.operands cur h.1]
      exact ih cur h.2

theorem checkFunctionCalls_of_no_calls (evalF : Nat → Func → Res) (M : Module) :
    ∀ (body : List Instr) (d : Nat),
      (body.all fun I => !I.isCall) = true →
      checkFunctionCalls evalF M d body = Res.ok true d := by
  intro body
  induction body with
  | nil => intro d h; rfl
  | cons I rest ih =>
    intro d h
    simp only [List.all_cons, Bool.and_eq_true] at h
    cases I with
    | call c a => simp [Instr.isCall] at h
    | load p => simpa [checkFunctionCalls] using ih d h.2
    | store v p => simpa [checkFunctionCalls] using ih d h.2
    | other ops => simpa [checkFunctionCalls] using ih d h.2
    | debug ops => simpa [checkFunctionCalls] using ih d h.2

theorem eraseAt_idxOfV (l : List Value) (x : Value) :
    eraseAt l (idxOfV l x) = eraseV l x := by
  induction l with
  | nil => rfl
  | cons y ys ih =>
    by_cases h : y = x
    · simp [idxOfV, eraseV, h, eraseAt]
    · simp [idxOfV, eraseV, h, eraseAt, ih]

theorem countV_eraseV_self (l : List Value) (x : Value) (h : 0 < countV l x) :
    countV (eraseV l x) x + 1 = countV l x := by
  induction l with
  | nil => simp [countV] at h
  | cons y ys ih =>
    by_cases hyx : y = x
    · simp only [eraseV, if_pos hyx, countV, if_pos hyx]
      omega
    · have h2 : 0 < countV ys x := by simpa [countV, hyx] using h
      have h3 := ih h2
      simp only [eraseV, if_neg hyx, countV, if_neg hyx]
      omega

theorem eraseV_of_countV_zero (l : List Value) (x : Value) (h : countV l x = 0) :
    eraseV l x = l := by
  induction l with
  | nil => rfl
  | cons y ys ih =>
    by_cases hyx : y = x
    · simp [countV, hyx] at h
    · have h2 : countV ys x = 0 := by simpa [countV, hyx] using h
      simp [eraseV, hyx, ih h2]

theorem countV_eraseV_ne (l : List Value) (x v : Value) (h : v ≠ x) :
    countV (eraseV l x) v = countV l v := by
  induction l with
  | nil => rfl
  | cons y ys ih =>
    by_cases hyx : y = x
    · have hxv : ¬ (x = v) := fun hxv => h hxv.symm
      have hyv : ¬ (y = v) := by rw [hyx]; exact hxv
      simp [eraseV, hyx, countV, hyv, hxv]
    · simp [eraseV, hyx, countV, ih]

theorem filter_eraseV (l : List Value) (x : Value) (hx : x.isConstInt = true) :
    (eraseV l x).filter (fun v => !v.isConstInt) =
      l.filter (fun v => !v.isConstInt) := by
  induction l with
  | nil => rfl
  | cons y ys ih =>
    by_cases hyx : y = x
    · simp [eraseV, hyx, List.filter_cons, hx]
    · simp only [eraseV, if_neg hyx, List.filter_cons, ih]

theorem filter_of_no_consts (l : List Value)
    (h : ∀ v, v.isConstInt = true → countV l v = 0) :
    l.filter (fun v => !v.isConstInt) = l := by
  induction l with
  | nil => rfl
  | cons y ys ih =>
    cases hy : y.isConstInt with
    | true =>
      exfalso
      have := h y hy
      simp [countV] at this
    | false =>
      have h2 : ∀ v, v.isConstInt = true → countV ys v = 0 := by
        intro v hv
        have h3 := h v hv
        by_cases hyv : y = v
        · rw [hyv, hv] at hy
          cases hy
        · simpa [countV, hyv] using h3
      simp [List.filter_cons, hy, ih h2]

theorem removeConstants_snd :
    ∀ (xs : List Value) (proto : List LTy) (na : List Value),
      (∀ v, v.isConstInt = true → countV na v ≤ countV xs v) →
      (removeConstants proto na xs).2 = na.filter (fun v => !v.isConstInt) := by
  intro xs
  induction xs with
  | nil =>
    intro proto na h
    have h0 : ∀ v, v.isConstInt = true → countV na v = 0 := by
      intro v hv
      have h1 := h v hv
      simp only [countV] at h1
      omega
    simp [removeConstants, filter_of_no_consts na h0]
  | cons x xs ih =>
    intro proto na h
    by_cases hx : x.isConstInt = true
    · have hstep : ∀ v, v.isConstInt = true →
          countV (eraseV na x) v ≤ countV xs v := by
        intro v hv
        by_cases hvx : v = x
        · subst hvx
          by_cases hpos : 0 < countV na v
          · have h1 := countV_eraseV_self na v hpos
            have h2 := h v hv
            simp [countV] at h2
            omega
          · have h0 : countV na v = 0 := by omega
            rw [eraseV_of_countV_zero na v h0]
            omega
        · rw [countV_eraseV_ne na x v hvx]
          have h2 := h v hv
          have hxv : ¬ (x = v) := fun hh => hvx hh.symm
          simpa [countV, hxv] using h2
      simp only [removeConstants, hx, if_true]
      rw [eraseAt_idxOfV, ih (eraseAt proto (idxOfV na x)) (eraseV na x) hstep]
      exact filter_eraseV na x hx
    · have hx2 : x.isConstInt = false := by simpa using hx
      have hstep : ∀ v, v.isConstInt = true → countV na v ≤ countV xs v := by
        intro v hv
        have h2 := h v hv
        have hxv : ¬ (x = v) := by
          intro hh
          rw [hh, hv] at hx2
          cases hx2
        simpa [countV, hxv] using h2
      simp only [removeConstants, hx2, Bool.false_eq_true, if_false]
      exact ih proto na hstep

theorem processSite_createdFunc (fname : String) (retTy : LTy)
    (globals : List Value) (proto : List LTy) (cs : CallSiteIn) :
    (processSite fname retTy globals proto cs).1.createdFunc =
      { name := "_memoized__" ++ fname
        sigTypes :=
          ((cs.args ++ globals).filter (fun v => !v.isConstInt)).map Value.typeOf
        retTy := retTy } := by
  have h := removeConstants_snd (cs.args ++ globals) proto (cs.args ++ globals)
    (fun v hv => le_refl _)
  simp [processSite, h]

theorem replaceGo_createdFuncs (fname : String) (retTy : LTy)
    (globals : List Value) :
    ∀ (sites : List CallSiteIn) (proto : List LTy),
      (replaceGo fname retTy globals proto sites).map SiteResult.createdFunc =
        sites.map (fun cs =>
          { name := "_memoized__" ++ fname
            sigTypes :=
              ((cs.args ++ globals).filter (fun v => !v.isConstInt)).map Value.typeOf
            retTy := retTy }) := by
  intro sites
  induction sites with
  | nil => intro proto; rfl
  | cons cs rest ih =>
    intro proto
    simp only [replaceGo, List.map_cons, processSite_createdFunc, ih]

theorem checkFunctionCallsSt_eq (evalFSt : Module → Nat → Func → Res × Module)
    (evalF : Nat → Func → Res) (M : Module)
    (hev : ∀ d G, evalFSt M d G = (evalF d G, M)) :
    ∀ (l : List Instr) (d : Nat),
      checkFunctionCallsSt evalFSt M d l = (checkFunctionCalls evalF M d l, M) := by
  intro l
  induction l with
  | nil => intro d; rfl
  | cons i rest ih =>
    intro d
    cases i with
    | call calleeName argOps =>
      simp only [checkFunctionCallsSt, checkFunctionCalls]
      cases hcf : getCalledFunction M calleeName with
      | none => rfl
      | some callee =>
        by_cases hs : callee.speculatable = true
        · simp only [hs, if_true]
          exact ih d
        · simp only [hs, Bool.false_eq_true, if_false]
          by_cases hd2 : MAX_DEPTH ≤ d + 1
          · simp [hd2]
          · simp only [if_neg hd2]
            rw [hev (d + 1) callee]
            cases hr : evalF (d + 1) callee with
            | ok b d2 =>
              cases b with
              | true => exact ih d2
              | false => rfl
            | crash => rfl
            | fuelOut => rfl
    | load p => simpa [checkFunctionCallsSt, checkFunctionCalls] using ih d
    | store v p => simpa [checkFunctionCallsSt, checkFunctionCalls] using ih d
    | other ops => simpa [checkFunctionCallsSt, checkFunctionCalls] using ih d
    | debug ops => simpa [checkFunctionCallsSt, checkFunctionCalls] using ih d

theorem isMemoizableSt_eq :
    ∀ (fuel : Nat) (M : Module) (d : Nat) (F : Func),
      isMemoizableSt fuel M d F = (isMemoizable fuel M d F, M) := by
  intro fuel
  induction fuel with
  | zero => intro M d F; rfl
  | succ n ih =>
    intro M d F
    by_cases h1 : (F.isDecl || F.isIntr || F.isVarArg || mayBeOverridden F) = true
    · simp [isMemoizableSt, isMemoizable, h1]
    · by_cases h2 : isMemoizableLib F = true
      · simp [isMemoizableSt, isMemoizable, h1, h2]
      · have hcc := checkFunctionCallsSt_eq
          (fun M2 d2 G => isMemoizableSt n M2 d2 G)
          (fun d2 G => isMemoizable n M d2 G) M
          (fun d2 G => ih M d2 G) F.body 0
        simp only [isMemoizableSt, isMemoizable, h1, h2, Bool.false_eq_true,
          if_false, hcc]
        cases hr : checkFunctionCalls (fun d2 G => isMemoizable n M d2 G)
            M 0 F.body with
        | ok b d2 => rfl
        | crash => rfl
        | fuelOut => rfl

/-! ## Claim theorems -/

/-- C1: the claim says an indirect call yields the normal verdict
Ineligible(IndirectCall) and the analysis never dereferences the
unresolved (null) callee. The code instead dereferences the null result of
`getCalledFunction()` at Memoize.cpp:182: on a function whose body is one
indirect call, the analysis crashes (for every fuel, i.e. however long the
evaluation is allowed to run, the outcome is the modelled null
dereference, never a verdict). -/
theorem C1_indirect_call_crashes (fuel : Nat) :
    evaluate mInd fInd (fuel + 1) = Res.crash := rfl

/-- C3: the claim says a function referencing exactly one scalar-numeric
global passes the global-safety check and is Eligible. On the spec's own
scenario `readG` (one i32 global `G`, proper arguments, no calls) the code
returns Ineligible: the type test at Memoize.cpp:108-110 is the tautology
`opType != IntegerTyID || opType != FloatTyID || opType != DoubleTyID`
(applied to the global's pointer type besides), so every global reference
fails `isGlobalSafe`. -/
theorem C3_scalar_global_rejected :
    isGlobalSafe readG = false ∧ isProperArguments readG = true ∧
    (readG.body.all fun I => !I.isCall) = true ∧
    evaluate mReadG readG 3 = Res.ok false 0 := by decide

/-- C4: the claim says evaluate(F) = Ineligible(DepthExceeded) exactly
when a single chain of nested calls from F exceeds depth 10, sibling
chains not sharing the budget. The code disagrees in both directions:
(1) on a linear chain of twelve nested calls `c0 -> ... -> c11` it finds
`c0` Eligible (every recursive `isMemoizable` resets the shared
`callStackDepth` to 0 at Memoize.cpp:135 and again at line 95, so depth
never exceeds 1 along a chain); (2) on a function with ten sibling calls
to one `_memoized__`-marked callee — no chain deeper than one call — the
shared counter accumulates across siblings to 10 and the function is
rejected on the depth branch (Memoize.cpp:188-193) with the counter left
at 10. -/
theorem C4_depth_budget_not_path_scoped :
    evaluate mChain chain0 20 = Res.ok true 0 ∧
    evaluate mSib fSib 12 = Res.ok false 10 := by decide

/-- C5: the claim says the synthesized name is a pure function of the
original name plus the folded constant tuple: same constants must reuse
one synthesized function, different constants must give distinct ones. In
the code the constant suffix is commented out (Memoize.cpp:272) and every
call site runs its own `Function::Create` (Memoize.cpp:305-310): the call
sites `foo(5, x)` and `foo(6, y)` both request the very same name
`_memoized__foo`, and the call sites `foo(5, x)` and `foo(5, y)` — equal
constants — still produce two separate creations (two `SiteResult`
entries) instead of reusing one function. -/
theorem C5_variant_identity_ignored :
    ((replaceCallSites fooRw [⟨[c5v, vX]⟩, ⟨[c6v, vY]⟩]).map fun s => s.createdFunc.name)
      = ["_memoized__foo", "_memoized__foo"] ∧
    (replaceCallSites fooRw [⟨[c5v, vX]⟩, ⟨[c5v, vY]⟩]).length = 2 := by decide

/-- C6 counterexample: the claim says the canonical signature (the
type-sorted, constant-stripped parameter list) computed by the rewriter is
one and the same for every call site within a single pass. The `prototype`
vector — computed and sorted once at Memoize.cpp:226-229 — is shared
across the call-site loop and destructively `erase`d at line 267, so two
IDENTICAL call sites `foo(5, x)` leave it at `[i32]` after the first and
`[]` after the second. -/
theorem C6_shared_prototype_mutated :
    ((replaceCallSites fooRw [⟨[c5v, vX]⟩, ⟨[c5v, vX]⟩]).map SiteResult.protoAfter)
      = [[LTy.int 32], []] ∧ ([LTy.int 32] : List LTy) ≠ [] := by decide

/-- C8 counterexample: the claim says a `_memoized__`-named function is
Eligible unconditionally. The structural checks at Memoize.cpp:128-130 run
BEFORE the name test at line 132: a variadic function carrying the mark is
Ineligible. -/
theorem C8_lib_name_not_unconditional :
    isMemoizableLib fVarLib = true ∧ evaluate mVarLib fVarLib 1 = Res.ok false 0 := by
  decide

/-- C9: the claim says a weak-linkage or address-taken function is
Ineligible(Overridable) before any analysis. `mayBeOverridden` at
Memoize.cpp:351-353 is a stub returning `false`, so a weak, address-taken
function sails through and is found Eligible. -/
theorem C9_overridable_check_stubbed :
    fWeak.linkage = Linkage.weakAny ∧ fWeak.addressTaken = true ∧
    mayBeOverridden fWeak = false ∧ evaluate mWeak fWeak 1 = Res.ok true 0 := by
  decide

/-- C7: every function that has a body, is not an intrinsic, is not
variadic, has no parameters, references no global in any instruction
operand and contains no call instruction evaluates to Eligible. -/
theorem C7_trivial_function_eligible (M : Module) (F : Func) (fuel : Nat)
    (h1 : F.isDecl = false) (h2 : F.isIntr = false) (h3 : F.isVarArg = false)
    (h4 : F.args = [])
    (h5 : (F.body.all fun I => I.operands.all fun v => !v.isGlobal) = true)
    (h6 : (F.body.all fun I => !I.isCall) = true) :
    evaluate M F (fuel + 1) = Res.ok true 0 := by
  simp only [evaluate, isMemoizable, h1, h2, h3, mayBeOverridden, Bool.or_self,
    Bool.or_false, Bool.false_eq_true, if_false]
  by_cases hlib : isMemoizableLib F = true
  · simp [hlib]
  · simp only [hlib, Bool.false_eq_true, if_false,
      checkFunctionCalls_of_no_calls _ M F.body 0 h6]
    have hpa : isProperArguments F = true := by
      simp [isProperArguments, h4]
    have hgs : isGlobalSafe F = true :=
      isGlobalSafeGo_of_no_globals F.body none h5
    simp [hpa, hgs]

/-- C7 witness: the concrete parameterless, global-free, call-free
function `fTrivial` is Eligible. -/
theorem C7_witness : evaluate mTrivial fTrivial 1 = Res.ok true 0 :=
  C7_trivial_function_eligible mTrivial fTrivial 0 rfl rfl rfl rfl (by decide)
    (by decide)

/-- C8 (amended): a function whose name carries the `_memoized__` mark and
which passes the structural gate (has a body, not an intrinsic, not
variadic) is Eligible without the argument-safety, global-safety or
call-safety analysis being performed — the theorem quantifies over an
arbitrary body, arbitrary parameters and arbitrary module, and holds at
any positive fuel, so no recursive analysis of the body can be involved.
-/
theorem C8_lib_name_eligible_after_structural_gate (M : Module) (F : Func)
    (fuel : Nat) (h1 : F.isDecl = false) (h2 : F.isIntr = false)
    (h3 : F.isVarArg = false) (h4 : isMemoizableLib F = true) :
    evaluate M F (fuel + 1) = Res.ok true 0 := by
  simp [evaluate, isMemoizable, h1, h2, h3, h4, mayBeOverridden]

/-- C2: the claim says evaluation terminates on every function, a
re-entered function yielding Ineligible(Cyclic). The code has no
in-progress marking: on the mutually recursive pair `f <-> g` the
recursion `isMemoizable -> checkFunctionCalls -> isMemoizable` re-derives
`f` forever (each re-entry resets `callStackDepth` to 0 at
Memoize.cpp:135/95, so not even the depth bound stops it). In the fuel
model: for EVERY fuel and every starting depth the evaluation of `f` (and
of `g`) is still running when the fuel runs out — it never returns any
verdict. -/
theorem C2_cycle_never_terminates (fuel d : Nat) :
    isMemoizable fuel mCyc d fCyc = Res.fuelOut ∧
    isMemoizable fuel mCyc d gCyc = Res.fuelOut := by
  induction fuel generalizing d with
  | zero => exact ⟨rfl, rfl⟩
  | succ n ih =>
    have hf : isMemoizable n mCyc 1 fCyc = Res.fuelOut := (ih 1).1
    have hg : isMemoizable n mCyc 1 gCyc = Res.fuelOut := (ih 1).2
    constructor
    · have e1 : (fCyc.isDecl || fCyc.isIntr || fCyc.isVarArg ||
          mayBeOverridden fCyc) = false := by decide
      have e2 : isMemoizableLib fCyc = false := by decide
      have hcc : checkFunctionCalls (fun d2 G => isMemoizable n mCyc d2 G)
          mCyc 0 fCyc.body = Res.fuelOut := by
        have hb : fCyc.body = [Instr.call (some "g") []] := rfl
        have e3 : getCalledFunction mCyc (some "g") = some gCyc := by decide
        have e4 : gCyc.speculatable = false := rfl
        have e5 : ¬ (MAX_DEPTH ≤ 0 + 1) := by decide
        rw [hb]
        simp only [checkFunctionCalls, e3, e4, Bool.false_eq_true, if_false,
          if_neg e5, hg]
      simp only [isMemoizable, e1, e2, Bool.false_eq_true, if_false, hcc]
    · have e1 : (gCyc.isDecl || gCyc.isIntr || gCyc.isVarArg ||
          mayBeOverridden gCyc) = false := by decide
      have e2 : isMemoizableLib gCyc = false := by decide
      have hcc : checkFunctionCalls (fun d2 G => isMemoizable n mCyc d2 G)
          mCyc 0 gCyc.body = Res.fuelOut := by
        have hb : gCyc.body = [Instr.call (some "f") []] := rfl
        have e3 : getCalledFunction mCyc (some "f") = some fCyc := by decide
        have e4 : fCyc.speculatable = false := rfl
        have e5 : ¬ (MAX_DEPTH ≤ 0 + 1) := by decide
        rw [hb]
        simp only [checkFunctionCalls, e3, e4, Bool.false_eq_true, if_false,
          if_neg e5, hf]
      simp only [isMemoizable, e1, e2, Bool.false_eq_true, if_false, hcc]

/-- C8 witness: `fLibInd` carries the mark and its body is an indirect
call, which would crash the call analysis were it run
(`C1_indirect_call_crashes`): it is nevertheless found Eligible,
demonstrating the analyses are skipped. -/
theorem C8_witness : evaluate mLibInd fLibInd 1 = Res.ok true 0 :=
  C8_lib_name_eligible_after_structural_gate mLibInd fLibInd 0 rfl rfl rfl
    (by decide)

/-- C6 (amended): the function each call site's rewrite creates is a pure
function of the rewritten function and THAT call site's argument values —
its name is `_memoized__` plus the original name (the folded constants do
not enter it), and its signature is the types of the site's non-constant
actual arguments (data operands then collected globals, `ConstantInt`s
dropped). Hence two call sites with identical argument values synthesize
identically-described functions, and repeated invocations of the rewriter
on the same inputs produce identical signatures and names; what does NOT
hold is the claim's universal identity of the stripped prototype across
call sites, which `C6_shared_prototype_mutated` refutes. -/
theorem C6_created_function_pure_in_site_args (F : Func)
    (sites : List CallSiteIn) :
    (replaceCallSites F sites).map SiteResult.createdFunc =
      sites.map (canonNewFunc F) := by
  have h := replaceGo_createdFuncs F.name F.retTy (getGlobalsByFunction F)
    sites (sortProto (getPrototype F))
  simp only [replaceCallSites]
  rw [h]
  rfl

/-- C10: eligibility evaluation is observationally read-only with respect
to the module. In the module-threaded mirror of the analyzer — where every
step hands the module on exactly as the source's control flow does — the
module coming out of `evaluate` is the module that went in, for every
function, fuel and module (mutation happens only in the rewriter,
`replaceCallSites`, which runs afterwards and only for eligible
functions); moreover the threaded analyzer computes the very verdict of
the module-free `evaluate`. -/
theorem C10_analysis_preserves_module (M : Module) (F : Func) (fuel : Nat) :
    (evaluateSt M F fuel).2 = M ∧ (evaluateSt M F fuel).1 = evaluate M F fuel := by
  rw [evaluateSt, isMemoizableSt_eq fuel M 0 F]
  exact ⟨rfl, rfl⟩

end Memoize
